import Mathlib

/-!
Verification of the API-version-fallback paginated fetch client with outcome
reconciliation from `test_cases_by_top_suite_patched3.py` (with identical
copies of the pagination and plan-resolution helpers in
`test_case_burndown.py`).  Python dictionaries carrying JSON records are
embedded as Lean structures with `Option`-valued fields (a `none` field
models both an absent key and a JSON `null`); Python string truthiness
(`if o:`) is `truthyStr`; unbounded `while` loops are embedded with an
explicit fuel parameter, where exhausting the fuel models non-termination.
-/

namespace StateTest

/-- Python truthiness of an optional string: `None` and `""` are falsy. -/
def truthyStr : Option String → Bool
  | none => false
  | some s => !s.isEmpty

/-- Python `a or b` on optional strings: `b` when `a` is falsy (even if `b`
is itself falsy). -/
def pyOrS (a b : Option String) : Option String :=
  if truthyStr a then a else b

/-- Python `a or d` where `d` is a (truthy) string literal default. -/
def pyOrStr (a : Option String) (d : String) : String :=
  match a with
  | none => d
  | some s => if s.isEmpty then d else s

/-! ## Outcome precedence (`OUTCOME_ORDER`, `worse`)

Source, `test_cases_by_top_suite_patched3.py` lines 143-186.  The Python
dict `OUTCOME_ORDER` maps the six recognized statuses to 6,5,4,3,2,0 and
`None`, `""`, `"None"`, `"NeverRun"` to -1; `dict.get(key, -1)` gives every
other string -1 as well. -/

def OUTCOME_ORDER (o : Option String) : Int :=
  match o with
  | none => -1
  | some s =>
    if s = "Failed" then 6
    else if s = "Blocked" then 5
    else if s = "Paused" then 4
    else if s = "Active" then 3
    else if s = "NotApplicable" then 2
    else if s = "Passed" then 0
    else -1

/-- Operation `worse(a, b)`: `return a if va >= vb else b`. -/
def worse (a b : Option String) : Option String :=
  if OUTCOME_ORDER b ≤ OUTCOME_ORDER a then a else b

/-- The spec's `reconcile`: left fold of `worse` over raw outcomes starting
from the unset sentinel (`bucket["outcome"] = None` in `main`, updated by
`bucket["outcome"] = worse(bucket["outcome"], outcome)`). -/
def reconcile (l : List (Option String)) : Option String :=
  l.foldl worse none

/-! ## Points and `resolve_point_outcome`

Source lines 154-179.  A point is a JSON dict; the fields the reconciler
reads are flattened here: `mostRecentResultOutcome` stands for
`(point.get("mostRecentResult") or {}).get("outcome")` and likewise for the
other two nested dicts.  `id` is the point id, `testCaseId`/`testCaseName`
come from `point["testCase"]`. -/

structure Point where
  outcome : Option String
  mostRecentResultOutcome : Option String
  lastTestRunOutcome : Option String
  lastResultDetailsOutcome : Option String
  id : Option Nat
  testCaseId : Option Nat
  testCaseName : Option String
deriving DecidableEq, Repr

/-- Function `resolve_point_outcome(point)`: probe the four candidate fields in
order, returning the first truthy one; the last candidate is returned
unconditionally (it may be `None`). -/
def resolve_point_outcome (p : Point) : Option String :=
  if truthyStr p.outcome then p.outcome
  else if truthyStr p.mostRecentResultOutcome then p.mostRecentResultOutcome
  else if truthyStr p.lastTestRunOutcome then p.lastTestRunOutcome
  else p.lastResultDetailsOutcome

/-- The four candidate fields in the order the source probes them. -/
def outcomeCandidates (p : Point) : List (Option String) :=
  [p.outcome, p.mostRecentResultOutcome, p.lastTestRunOutcome,
   p.lastResultDetailsOutcome]

/-! ## Versioned pagination client (`get_json_paginated_fallback`)

Source lines 61-84 (identical in `test_case_burndown.py` lines 44-67).
The HTTP endpoint is abstracted as a deterministic oracle
`fetch : version → continuation token → FetchResult`: `err code text` is a
response with status >= 400, `ok chunk tok` is a 200 whose decoded body
yields the list `chunk` under the value key and whose
`x-ms-continuationtoken` header is `tok` (absent = `none`).  The `while
True` loop carries fuel; `.hung` models a pagination loop that never ends.
`α` is the record type of the fetched collection. -/

inductive FetchResult (α : Type) where
  | err (code : Nat) (text : String)
  | ok (chunk : List α) (tok : Option String)
deriving DecidableEq, Repr

inductive PagLoop (α : Type) where
  | done (out : List α)
  | errored (last : String)
  | hung
deriving DecidableEq, Repr

/-- One version's pagination loop.  On an error response the accumulated
`out` is discarded (`out = []` then `break` in the source) and the
formatted `f"{r.status_code} {r.text}"` is reported; on success the chunk
is appended and the loop continues while the continuation token is truthy
(`if not token: return out`). -/
def paginate (fetch : String → Option String → FetchResult α) (ver : String) :
    Nat → Option String → List α → PagLoop α
  | 0, _, _ => .hung
  | n + 1, token, out =>
    match fetch ver token with
    | .err code text => .errored (toString code ++ " " ++ text)
    | .ok chunk tok =>
      let out := out ++ chunk
      match tok with
      | none => .done out
      | some t => if t.isEmpty then .done out else paginate fetch ver n (some t) out

/-- The version-fallback driver: try each version's full pagination in
order, remembering the last error string; when the list is exhausted the
source raises `SystemExit(f"All versions failed for {url}\n{last}")`,
embedded as `Except.error last`.  The outer `Option` is `none` when a
pagination loop hangs. -/
def get_json_paginated_fallback (fetch : String → Option String → FetchResult α)
    (fuel : Nat) : List String → String → Option (Except String (List α))
  | [], last => some (.error last)
  | ver :: rest, last =>
    match paginate fetch ver fuel none [] with
    | .done out => some (.ok out)
    | .errored l => get_json_paginated_fallback fetch fuel rest l
    | .hung => none

/-! ## Suites and the hierarchy resolver

Source lines 99-127 (`list_suites`, `build_suite_path_lookup`) and 260-264
(`top_ancestor`).  After `list_suites` normalisation every suite dict has a
string `id`, a `name` and an optional string `parentId`. -/

structure Suite where
  id : String
  name : String
  parentId : Option String
deriving DecidableEq, Repr

/-- Python `by_id = {s["id"]: s for s in suites}`: on duplicate ids the later
entry wins, hence the lookup searches the reversed list. -/
def dictGet (suites : List Suite) (sid : String) : Option Suite :=
  suites.reverse.find? (fun s => s.id = sid)

inductive WalkResult where
  | found (id : String)
  | missingKey (id : String)
  | outOfFuel
deriving DecidableEq, Repr

/-- Function `top_ancestor(sid)` (source lines 260-264): `cur = by_id[sid]` then
follow `parentId` via `by_id[...]` until it is `None`.  Both lookups are
`dict[...]`, so a missing id is a `KeyError` (`missingKey`); the `while`
loop is fuel-bounded, `outOfFuel` standing for non-termination. -/
def top_ancestor (suites : List Suite) : Nat → String → WalkResult
  | 0, _ => .outOfFuel
  | n + 1, sid =>
    match dictGet suites sid with
    | none => .missingKey sid
    | some s =>
      match s.parentId with
      | none => .found s.id
      | some pid => top_ancestor suites n pid

inductive PathRes where
  | parts (l : List String)
  | keyErr (id : String)
  | outOfFuel
deriving DecidableEq, Repr

/-- The `while cur is not None` loop of `path_for` (source lines 116-122):
append `cur["name"]`, then move to `by_id.get(pid)` — a *non-raising*
lookup, so a dangling parent id merely ends the walk. -/
def path_loop (suites : List Suite) : Nat → Suite → List String → PathRes
  | 0, _, _ => .outOfFuel
  | n + 1, cur, parts =>
    let parts := parts ++ [cur.name]
    match cur.parentId with
    | none => .parts parts
    | some pid =>
      match dictGet suites pid with
      | none => .parts parts
      | some nxt => path_loop suites n nxt parts

/-- Function `path_for(sid)`: the entry lookup `cur = by_id[sid]` is a raising
`dict[...]` access (`keyErr`), then the walk collects names node-first.
The source's per-id cache is pure memoisation of this walk and does not
change its value, so it is not modelled. -/
def path_for (suites : List Suite) (fuel : Nat) (sid : String) : PathRes :=
  match dictGet suites sid with
  | none => .keyErr sid
  | some s => path_loop suites fuel s []

/-- Python `"/".join(reversed parts)` — the value `build_suite_path_lookup` caches
for one id (`none` when the walk hangs or the id is unknown). -/
def path_string (suites : List Suite) (fuel : Nat) (sid : String) : Option String :=
  match path_for suites fuel sid with
  | .parts l => some (String.intercalate "/" l.reverse)
  | _ => none

/-- Function `build_suite_path_lookup(suites)` (source lines 109-127): force the
path of every suite id, returning the id → path mapping; the whole call
hangs (`none`) as soon as any single walk hangs. -/
def build_suite_path_lookup (suites : List Suite) (fuel : Nat) :
    Option (List (String × String)) :=
  suites.mapM (fun s => (path_string suites fuel s.id).map (fun p => (s.id, p)))

/-! ## Plan resolution (`resolve_plan_id_by_name`)

Source lines 87-97 (identical in `test_case_burndown.py` lines 70-80). -/

structure PlanRec where
  id : Nat
  name : String
deriving DecidableEq, Repr

/-- Python `str.lower()`, as a per-character lowering of the code points. -/
def pyLower (s : String) : String := ⟨s.data.map Char.toLower⟩

/-- Python `str.strip()`: drop whitespace from both ends. -/
def pyStrip (s : String) : String :=
  ⟨((s.data.dropWhile Char.isWhitespace).reverse.dropWhile Char.isWhitespace).reverse⟩

def leadMatch : List Char → List Char → Bool
  | [], _ => true
  | _ :: _, [] => false
  | a :: as, b :: bs => a == b && leadMatch as bs

def hasSegment (needle : List Char) : List Char → Bool
  | [] => leadMatch needle []
  | b :: bs => leadMatch needle (b :: bs) || hasSegment needle bs

/-- Python `needle in hay` (contiguous substring test). -/
def strContains (hay needle : String) : Bool :=
  hasSegment needle.data hay.data

/-- Function `resolve_plan_id_by_name`: exact case-insensitive stripped match first,
else case-insensitive substring match, else
`SystemExit(f"Plan '{plan_name}' not found")`; returns `str(exact[0]["id"])`
of the first match. -/
def resolve_plan_id_by_name (plans : List PlanRec) (plan_name : String) :
    Except String String :=
  let wanted := pyStrip (pyLower plan_name)
  let exact := plans.filter (fun p => pyStrip (pyLower p.name) = wanted)
  match exact with
  | p :: _ => .ok (toString p.id)
  | [] =>
    match plans.filter (fun p => strContains (pyLower p.name) wanted) with
    | [] => .error ("Plan '" ++ plan_name ++ "' not found")
    | q :: _ => .ok (toString q.id)

/-! ## Association-list embedding of Python dicts

Python dicts keep insertion order; an update mutates the entry in place, a
`setdefault` on a fresh key appends at the end. -/

def alGet [DecidableEq κ] (l : List (κ × β)) (k : κ) : Option β :=
  (l.find? (fun e => e.1 = k)).map (fun e => e.2)

/-- Python `d.setdefault(k, init)` followed by mutating the entry with `f`:
update the first entry for `k` in place, or append `(k, f init)`. -/
def alUpd [DecidableEq κ] : List (κ × β) → κ → (β → β) → β → List (κ × β)
  | [], k, f, init => [(k, f init)]
  | e :: rest, k, f, init =>
    if e.1 = k then (e.1, f e.2) :: rest else e :: alUpd rest k f init

/-! ## Runs, Results and the backfill map

Source lines 197-256.  `list_runs_for_plan` sorts runs newest-first; the
`runs` argument below is that already-sorted list.  `list_results_for_run`
normalises `pointId` from a nested `testPoint.id` or a flat field;
`ResultRec.pointId` is the normalised value. -/

structure RunRec where
  id : Nat
  lastUpdatedDate : Option String
  completedDate : Option String
deriving DecidableEq, Repr

structure ResultRec where
  pointId : Option Nat
  outcome : Option String
  completedDate : Option String
  startedDate : Option String
deriving DecidableEq, Repr

/-- Python `(a or "") > (b or "")` on optional timestamp strings. -/
def pyGtStr (a b : Option String) : Bool :=
  decide (b.getD "" < a.getD "")

/-- The `latest_by_point` construction (source lines 236-251): over the most
recent 50 runs and their results, keep per point id the result outcome
with the lexicographically largest timestamp
(`completedDate or startedDate or run.lastUpdatedDate`). -/
def buildBackfillMap (runs : List RunRec) (resultsOf : Nat → List ResultRec) :
    List (Nat × Option String × Option String) :=
  (runs.take 50).foldl (fun m run =>
    (resultsOf run.id).foldl (fun m res =>
      match res.pointId with
      | none => m
      | some pid =>
        let ts := pyOrS (pyOrS res.completedDate res.startedDate) run.lastUpdatedDate
        match alGet m pid with
        | none => alUpd m pid (fun _ => (res.outcome, ts)) (res.outcome, ts)
        | some prev =>
          if pyGtStr ts prev.2 then alUpd m pid (fun _ => (res.outcome, ts)) (res.outcome, ts)
          else m) m) []

/-! ## Aggregation orchestrator (`main`, source lines 227-313) -/

structure Bucket where
  name : Option String
  outcome : Option String
  paths : List String
deriving DecidableEq, Repr

/-- The fresh bucket `{"name": tcname, "outcome": None, "paths": set()}`. -/
def bucketInit (tcname : Option String) : Bucket :=
  { name := tcname, outcome := none, paths := [] }

/-- The three in-place bucket mutations of the point loop (lines 288-290);
`paths` is the de-duplicated observation set in insertion order. -/
def updBucket (tcname : Option String) (fed : String) (path_str : String)
    (b : Bucket) : Bucket :=
  { name := pyOrS b.name tcname
    outcome := worse b.outcome (some fed)
    paths := if path_str ∈ b.paths then b.paths else b.paths ++ [path_str] }

/-- Line 283: `outcome = (p.get("resolvedOutcome") or p.get("outcome") or "NeverRun")`
where `resolvedOutcome` was set to `resolve_point_outcome(p)` by
`get_points_for_suite`. -/
def fedOutcome (p : Point) : String :=
  pyOrStr (resolve_point_outcome p) (pyOrStr p.outcome "NeverRun")

/-- The aggregation state: top-level suite id → (test case id → bucket). -/
abbrev AggState := List (String × List (Nat × Bucket))

/-- Body of the inner `for p in pts` loop (lines 279-290): skip a falsy
test case id, then `bucket = agg[tid].setdefault(...)` — a raising lookup
on `agg` (`none` on `KeyError`) — and mutate the bucket. -/
def processPoint (tid : String) (path_str : String) (agg : AggState) (p : Point) :
    Option AggState :=
  match p.testCaseId with
  | none => some agg
  | some tcid =>
    if tcid = 0 then some agg
    else
      match alGet agg tid with
      | none => none
      | some _ =>
        some (alUpd agg tid
          (fun aggT => alUpd aggT tcid
            (updBucket p.testCaseName (fedOutcome p) path_str)
            (bucketInit p.testCaseName))
          [])

/-- Body of the outer `for s in suites` loop (lines 270-290): fetch the
suite's points, skip when empty, resolve the suite's top ancestor (a hang
or `KeyError` there aborts), look up the suite path with the suite name as
default, and fold the points in. -/
def processSuite (suites : List Suite) (pointsOf : String → List Point) (fuel : Nat)
    (suite_path : List (String × String)) (agg : AggState) (s : Suite) :
    Option AggState :=
  if (pointsOf s.id).isEmpty then some agg
  else
    match top_ancestor suites fuel s.id with
    | .found tid =>
      (pointsOf s.id).foldlM
        (processPoint tid ((alGet suite_path s.id).getD s.name)) agg
    | _ => none

structure Row where
  TopSuiteId : String
  TopSuiteName : String
  TestCaseId : Nat
  TestCaseName : Option String
  Outcome : String
  NumPaths : Nat
  Paths : String
deriving DecidableEq, Repr

/-- The CSV substitution (line 303):
`info["outcome"] if info["outcome"] not in (None, "", "None") else "NeverRun"`. -/
def emitOutcome (o : Option String) : String :=
  match o with
  | none => "NeverRun"
  | some s => if s = "" ∨ s = "None" then "NeverRun" else s

def insertSorted (x : String) : List String → List String
  | [] => [x]
  | y :: ys => if x < y then x :: y :: ys else y :: insertSorted x ys

/-- Python `sorted` on the (distinct) path strings. -/
def sortStr (l : List String) : List String :=
  l.foldr insertSorted []

/-- The per-top-suite emission loop (lines 296-306).  `agg[tid]` always
holds every top-level id by construction, so the `getD []` default is never
taken. -/
def rowsForTop (agg : AggState) (top : Suite) : List Row :=
  ((alGet agg top.id).getD []).map (fun e =>
    { TopSuiteId := top.id, TopSuiteName := top.name, TestCaseId := e.1,
      TestCaseName := e.2.name, Outcome := emitOutcome e.2.outcome,
      NumPaths := e.2.paths.length,
      Paths := String.intercalate "; " (sortStr e.2.paths) })

/-- The orchestration of `main` after the fetches: build the path lookup,
initialise one empty bucket dict per top-level suite, fold every suite's
points in, and emit the per-top rows.  `latest_by_point` is the backfill
map built on lines 236-256; it is in scope for the whole aggregation,
exactly as in the source. -/
def aggregate (suites : List Suite) (pointsOf : String → List Point)
    (latest_by_point : List (Nat × Option String × Option String)) (fuel : Nat) :
    Option (List Row) :=
  match build_suite_path_lookup suites fuel with
  | none => none
  | some suite_path =>
    match suites.foldlM (processSuite suites pointsOf fuel suite_path)
        ((suites.filter (fun s => s.parentId.isNone)).map (fun s => (s.id, []))) with
    | none => none
    | some agg =>
      some ((suites.filter (fun s => s.parentId.isNone)).map (rowsForTop agg)).flatten

/-! ## Claim-side (specification) definitions -/

/-- The spec's recognized statuses, worst first. -/
def recognizedOutcomes : List String :=
  ["Failed", "Blocked", "Paused", "Active", "NotApplicable", "Passed"]

def recognizedB (o : Option String) : Bool :=
  match o with
  | none => false
  | some s => recognizedOutcomes.contains s

/-- The spec's precedence tiers: `Failed > Blocked > Paused > Active >
NotApplicable > (Passed or unset/never-run, treated as lowest)`; every
unknown or empty string also sits in the lowest tier. -/
def specRank (o : Option String) : Nat :=
  match o with
  | none => 0
  | some s =>
    if s = "Failed" then 5
    else if s = "Blocked" then 4
    else if s = "Paused" then 3
    else if s = "Active" then 2
    else if s = "NotApplicable" then 1
    else 0

/-- What an emitted `Outcome` cell may hold: a recognized status or the
`NeverRun` sentinel. -/
def allowedOutcomes : List String := recognizedOutcomes ++ ["NeverRun"]

/-- A bucket outcome reachable by the aggregation: still unset, or a
recognized status. -/
def goodOpt (o : Option String) : Prop := o = none ∨ 0 ≤ OUTCOME_ORDER o

def InvT (aggT : List (Nat × Bucket)) : Prop := ∀ e ∈ aggT, goodOpt e.2.outcome

def Inv (agg : AggState) : Prop := ∀ e ∈ agg, InvT e.2

/-- The ancestor chain of a suite, node first: each element's parent is
resolved through `by_id` and the last element has no parent.  This is the
claim-side description of the walk both `top_ancestor` and `path_for`
perform. -/
inductive Chain (suites : List Suite) : Suite → List Suite → Prop where
  | root (s : Suite) : s.parentId = none → Chain suites s [s]
  | step (s p : Suite) (rest : List Suite) (pid : String) :
      s.parentId = some pid → dictGet suites pid = some p →
      Chain suites p rest → Chain suites s (s :: rest)

/-! ## Concrete fixtures -/

/-- The spec's two-node mutual-parent cycle. -/
def twoCycle : List Suite :=
  [{ id := "A", name := "a-name", parentId := some "B" },
   { id := "B", name := "b-name", parentId := some "A" }]

def sRoot : Suite := { id := "1", name := "root", parentId := none }
def sMid : Suite := { id := "2", name := "mid", parentId := some "1" }
def sLeaf : Suite := { id := "3", name := "leaf", parentId := some "2" }

/-- The spec's three-level chain root → mid → leaf. -/
def chain3 : List Suite := [sRoot, sMid, sLeaf]

/-- Pagination oracle: version `verA` serves one page then errors;
version `verB` serves two token-linked pages. -/
def c1fetch : String → Option String → FetchResult Nat := fun ver tok =>
  if ver = "verA" then
    match tok with
    | none => .ok [1] (some "tA")
    | some _ => .err 500 "boom"
  else if ver = "verB" then
    match tok with
    | none => .ok [10, 20] (some "tB")
    | some t => if t = "tB" then .ok [30] none else .err 404 "bad token"
  else .err 410 "gone"

/-- Pagination oracle on which every version errors, with a
version-dependent body. -/
def c7fetch : String → Option String → FetchResult Nat := fun ver _ =>
  .err 500 ("boom-" ++ ver)

/-- One top-level suite, one point whose four outcome fields are all
absent, targeting test case 42 through point 7. -/
def c3suites : List Suite := [{ id := "1", name := "Top", parentId := none }]

def c3point : Point :=
  { outcome := none, mostRecentResultOutcome := none, lastTestRunOutcome := none,
    lastResultDetailsOutcome := none, id := some 7, testCaseId := some 42,
    testCaseName := some "TC-42" }

def c3pointsOf : String → List Point := fun sid => if sid = "1" then [c3point] else []

def c3runs : List RunRec :=
  [{ id := 100, lastUpdatedDate := some "2024-01-02", completedDate := none }]

/-- Run 100 carries one result: point 7 Failed. -/
def c3resultsOf : Nat → List ResultRec := fun rid =>
  if rid = 100 then
    [{ pointId := some 7, outcome := some "Failed",
       completedDate := some "2024-01-01", startedDate := none }]
  else []

/-- A point with an empty direct outcome and a truthy
`mostRecentResult.outcome`. -/
def c6point : Point :=
  { outcome := some "", mostRecentResultOutcome := some "Blocked",
    lastTestRunOutcome := some "Passed", lastResultDetailsOutcome := none,
    id := some 9, testCaseId := some 1, testCaseName := some "x" }

/-- A point whose only outcome field holds a string outside the precedence
table. -/
def c10point : Point :=
  { outcome := some "Aborted", mostRecentResultOutcome := none,
    lastTestRunOutcome := none, lastResultDetailsOutcome := none,
    id := some 8, testCaseId := some 42, testCaseName := some "TC-42" }

def c10pointsOf : String → List Point := fun sid => if sid = "1" then [c10point] else []

/-! ## Helper lemmas: the outcome order -/

theorem outcome_order_cases (o : Option String) :
    o = some "Failed" ∨ o = some "Blocked" ∨ o = some "Paused" ∨
    o = some "Active" ∨ o = some "NotApplicable" ∨ o = some "Passed" ∨
    (recognizedB o = false ∧ OUTCOME_ORDER o = -1) := by
  match o with
  | none => right; right; right; right; right; right; exact ⟨rfl, rfl⟩
  | some s =>
    by_cases h1 : s = "Failed"
    · subst h1; exact Or.inl rfl
    by_cases h2 : s = "Blocked"
    · subst h2; exact Or.inr (Or.inl rfl)
    by_cases h3 : s = "Paused"
    · subst h3; exact Or.inr (Or.inr (Or.inl rfl))
    by_cases h4 : s = "Active"
    · subst h4; exact Or.inr (Or.inr (Or.inr (Or.inl rfl)))
    by_cases h5 : s = "NotApplicable"
    · subst h5; exact Or.inr (Or.inr (Or.inr (Or.inr (Or.inl rfl))))
    by_cases h6 : s = "Passed"
    · subst h6; exact Or.inr (Or.inr (Or.inr (Or.inr (Or.inr (Or.inl rfl)))))
    refine Or.inr (Or.inr (Or.inr (Or.inr (Or.inr (Or.inr ⟨?_, ?_⟩)))))
    · simp [recognizedB, recognizedOutcomes, h1, h2, h3, h4, h5, h6]
    · simp [OUTCOME_ORDER, h1, h2, h3, h4, h5, h6]

theorem outcome_order_lb (o : Option String) : -1 ≤ OUTCOME_ORDER o := by
  rcases outcome_order_cases o with rfl | rfl | rfl | rfl | rfl | rfl | ⟨_, h⟩
  · decide
  · decide
  · decide
  · decide
  · decide
  · decide
  · rw [h]

theorem outcome_order_nonneg_recognized {o : Option String}
    (h : 0 ≤ OUTCOME_ORDER o) : recognizedB o = true := by
  rcases outcome_order_cases o with rfl | rfl | rfl | rfl | rfl | rfl | ⟨h1, h2⟩
  · decide
  · decide
  · decide
  · decide
  · decide
  · decide
  · rw [h2] at h; omega

theorem outcome_order_inj {a b : Option String}
    (hab : OUTCOME_ORDER a = OUTCOME_ORDER b) (ha : 0 ≤ OUTCOME_ORDER a) : a = b := by
  rcases outcome_order_cases a with rfl | rfl | rfl | rfl | rfl | rfl | ⟨_, h2⟩ <;>
    rcases outcome_order_cases b with rfl | rfl | rfl | rfl | rfl | rfl | ⟨_, g2⟩ <;>
    first
      | rfl
      | (rw [h2] at ha; omega)
      | (rw [g2] at hab; exact absurd hab (by decide))
      | exact absurd hab (by decide)

/-! ## Helper lemmas: `worse` -/

theorem worse_of_le {a b : Option String} (h : OUTCOME_ORDER b ≤ OUTCOME_ORDER a) :
    worse a b = a := by
  unfold worse; exact if_pos h

theorem worse_of_gt {a b : Option String} (h : OUTCOME_ORDER a < OUTCOME_ORDER b) :
    worse a b = b := by
  unfold worse; exact if_neg (by omega)

/-- `worse` tie-breaks to its first argument, so two elements can swap in a
fold without changing the result: distinct strings can only tie at rank -1,
and a rank -1 element never displaces any accumulator. -/
theorem worse_right_comm (b x y : Option String) :
    worse (worse b x) y = worse (worse b y) x := by
  have hb := outcome_order_lb b
  unfold worse
  split_ifs <;>
    first
      | rfl
      | omega
      | exact outcome_order_inj (by omega) (by omega)

theorem worse_goodOpt {a : Option String} (h : goodOpt a) (b : Option String) :
    goodOpt (worse a b) := by
  rcases le_or_lt (OUTCOME_ORDER b) (OUTCOME_ORDER a) with hle | hgt
  · rw [worse_of_le hle]; exact h
  · rw [worse_of_gt hgt]
    right
    have := outcome_order_lb a
    omega

theorem goodOpt_emit {o : Option String} (h : goodOpt o) :
    emitOutcome o ∈ allowedOutcomes := by
  rcases h with rfl | h
  · decide
  · rcases outcome_order_cases o with rfl | rfl | rfl | rfl | rfl | rfl | ⟨_, h2⟩
    · decide
    · decide
    · decide
    · decide
    · decide
    · decide
    · rw [h2] at h; omega

theorem order_of_recognized {o : Option String} (h : recognizedB o = true) :
    0 ≤ OUTCOME_ORDER o := by
  rcases outcome_order_cases o with rfl | rfl | rfl | rfl | rfl | rfl | ⟨h1, _⟩
  · decide
  · decide
  · decide
  · decide
  · decide
  · decide
  · rw [h1] at h; exact absurd h (by decide)

theorem order_of_unrecognized {o : Option String} (h : recognizedB o = false) :
    OUTCOME_ORDER o = -1 := by
  rcases outcome_order_cases o with rfl | rfl | rfl | rfl | rfl | rfl | ⟨_, h2⟩
  · exact absurd h (by decide)
  · exact absurd h (by decide)
  · exact absurd h (by decide)
  · exact absurd h (by decide)
  · exact absurd h (by decide)
  · exact absurd h (by decide)
  · exact h2

theorem specRank_unrecognized {o : Option String} (h : recognizedB o = false) :
    specRank o = 0 := by
  match o with
  | none => rfl
  | some s =>
    by_cases h1 : s = "Failed"
    · subst h1; exact absurd h (by decide)
    by_cases h2 : s = "Blocked"
    · subst h2; exact absurd h (by decide)
    by_cases h3 : s = "Paused"
    · subst h3; exact absurd h (by decide)
    by_cases h4 : s = "Active"
    · subst h4; exact absurd h (by decide)
    by_cases h5 : s = "NotApplicable"
    · subst h5; exact absurd h (by decide)
    simp [specRank, h1, h2, h3, h4, h5]

/-- The spec's tiers refine the implementation's numeric order: a strictly
higher tier means a strictly larger `OUTCOME_ORDER` value. -/
theorem spec_vs_order {a b : Option String} (h : specRank b < specRank a) :
    OUTCOME_ORDER b < OUTCOME_ORDER a := by
  rcases outcome_order_cases a with rfl | rfl | rfl | rfl | rfl | rfl | ⟨ha1, ha2⟩ <;>
    rcases outcome_order_cases b with rfl | rfl | rfl | rfl | rfl | rfl | ⟨hb1, hb2⟩ <;>
    first
      | (revert h; decide)
      | (rw [hb2]; decide)
      | (rw [specRank_unrecognized ha1, specRank_unrecognized hb1] at h
         exact absurd h (by decide))
      | (rw [specRank_unrecognized ha1] at h; exact absurd h (by decide))

/-! ## Claim theorems: outcome reconciler -/

/-- C4: `reconcile` — the left fold of `worse` from the unset sentinel —
is invariant under permutation: any two permutations of the same multiset
of raw outcome values (including `None`, empty strings and strings outside
the precedence table) reconcile to the same result. -/
theorem reconcile_perm_invariant {l1 l2 : List (Option String)} (h : l1.Perm l2) :
    reconcile l1 = reconcile l2 := by
  haveI : RightCommutative worse := ⟨worse_right_comm⟩
  exact h.foldl_eq none

/-- Witness for C4 at a concrete permuted pair of raw outcome lists. -/
theorem reconcile_perm_invariant_witness :
    reconcile [some "Passed", none, some "Failed", some "junk"] =
      reconcile [some "junk", some "Failed", none, some "Passed"] :=
  reconcile_perm_invariant (by decide)

/-- C5: `worse` returns the argument of strictly higher spec tier
(`Failed > Blocked > Paused > Active > NotApplicable > lowest`), and any
unrecognized, empty or unset value loses to any recognized status. -/
theorem worse_follows_precedence (a b : Option String) :
    (specRank b < specRank a → worse a b = a) ∧
    (specRank a < specRank b → worse a b = b) ∧
    (recognizedB a = false → recognizedB b = true → worse a b = b) ∧
    (recognizedB a = true → recognizedB b = false → worse a b = a) := by
  refine ⟨fun h => worse_of_le (le_of_lt (spec_vs_order h)),
          fun h => worse_of_gt (spec_vs_order h),
          fun ha hb => worse_of_gt ?_,
          fun _ hb => worse_of_le ?_⟩
  · rw [order_of_unrecognized ha]
    have := order_of_recognized hb
    omega
  · rw [order_of_unrecognized hb]
    exact outcome_order_lb a

/-- Witness for C5: `Blocked` beats `Passed`, and an unknown string loses
to `Passed`. -/
theorem worse_follows_precedence_witness :
    worse (some "Passed") (some "Blocked") = some "Blocked" ∧
    worse (some "garbage") (some "Passed") = some "Passed" :=
  ⟨(worse_follows_precedence (some "Passed") (some "Blocked")).2.1 (by decide),
   (worse_follows_precedence (some "garbage") (some "Passed")).2.2.1 (by decide) (by decide)⟩

/-- C6: the resolved per-point outcome is the first truthy (non-`None`,
non-empty) value among the four candidate fields probed in the source's
order: direct `outcome`, then `mostRecentResult.outcome`, then
`lastTestRun.outcome`, then `lastResultDetails.outcome`. -/
theorem resolve_point_outcome_first_nonempty (p : Point) (c : Option String)
    (h : (outcomeCandidates p).find? truthyStr = some c) :
    resolve_point_outcome p = c := by
  by_cases h1 : truthyStr p.outcome <;>
    by_cases h2 : truthyStr p.mostRecentResultOutcome <;>
    by_cases h3 : truthyStr p.lastTestRunOutcome <;>
    by_cases h4 : truthyStr p.lastResultDetailsOutcome <;>
    simp_all [outcomeCandidates, resolve_point_outcome, List.find?]

/-- Witness for C6: an empty direct outcome is skipped in favour of the
most-recent-result outcome. -/
theorem resolve_point_outcome_first_nonempty_witness :
    resolve_point_outcome c6point = some "Blocked" :=
  resolve_point_outcome_first_nonempty c6point (some "Blocked") (by decide)

/-! ## Claim theorems: plan resolution -/

theorem find?_eq_filter_head? (p : α → Bool) (l : List α) :
    l.find? p = (l.filter p).head? := by
  induction l with
  | nil => rfl
  | cons a t ih =>
    rw [List.find?_cons, List.filter_cons]
    cases h : p a
    · exact ih
    · rfl

theorem head?_some_ex {l : List α} {a : α} (h : l.head? = some a) :
    ∃ t, l = a :: t := by
  cases l with
  | nil => exact absurd h (by simp)
  | cons x t =>
    simp only [List.head?_cons, Option.some.injEq] at h
    exact ⟨t, by rw [h]⟩

/-- The source's two-stage match, with the `let`-bindings expanded. -/
theorem resolve_plan_eq (plans : List PlanRec) (plan_name : String) :
    resolve_plan_id_by_name plans plan_name =
      match plans.filter (fun p => pyStrip (pyLower p.name) = pyStrip (pyLower plan_name)) with
      | p :: _ => .ok (toString p.id)
      | [] =>
        match plans.filter
            (fun p => strContains (pyLower p.name) (pyStrip (pyLower plan_name))) with
        | [] => .error ("Plan '" ++ plan_name ++ "' not found")
        | q :: _ => .ok (toString q.id) := rfl

/-- C9: plan resolution is case-insensitive; the first exact
(lowercased, stripped) name match wins over any substring match, a
substring match is used only when no exact match exists, and when neither
kind of match exists the resolution fails. -/
theorem resolve_plan_prefers_exact (plans : List PlanRec) (plan_name : String) :
    (∀ p, plans.find?
        (fun p => pyStrip (pyLower p.name) = pyStrip (pyLower plan_name)) = some p →
      resolve_plan_id_by_name plans plan_name = .ok (toString p.id)) ∧
    (plans.find? (fun p => pyStrip (pyLower p.name) = pyStrip (pyLower plan_name)) = none →
      ∀ q, plans.find?
          (fun p => strContains (pyLower p.name) (pyStrip (pyLower plan_name))) = some q →
        resolve_plan_id_by_name plans plan_name = .ok (toString q.id)) ∧
    (plans.find? (fun p => pyStrip (pyLower p.name) = pyStrip (pyLower plan_name)) = none →
      plans.find?
          (fun p => strContains (pyLower p.name) (pyStrip (pyLower plan_name))) = none →
        resolve_plan_id_by_name plans plan_name =
          .error ("Plan '" ++ plan_name ++ "' not found")) := by
  rw [find?_eq_filter_head?, find?_eq_filter_head?, resolve_plan_eq]
  refine ⟨fun p hp => ?_, fun he q hq => ?_, fun he hq => ?_⟩
  · obtain ⟨t, ht⟩ := head?_some_ex hp
    rw [ht]
  · rw [List.head?_eq_none_iff] at he
    obtain ⟨t, ht⟩ := head?_some_ex hq
    rw [he, ht]
  · rw [List.head?_eq_none_iff] at he
    rw [List.head?_eq_none_iff] at hq
    rw [he, hq]

/-- Witness for C9: with both an exact match (later in the list) and a
substring match (earlier), the exact match is returned; an unmatchable
name fails. -/
theorem resolve_plan_prefers_exact_witness :
    resolve_plan_id_by_name
        [{ id := 1, name := "Alpha Plan" }, { id := 2, name := " ALPHA " }] "alpha" =
      .ok "2" ∧
    resolve_plan_id_by_name [{ id := 1, name := "Alpha Plan" }] "zzz" =
      .error ("Plan '" ++ "zzz" ++ "' not found") := by
  constructor
  · exact (resolve_plan_prefers_exact
      [{ id := 1, name := "Alpha Plan" }, { id := 2, name := " ALPHA " }] "alpha").1
      { id := 2, name := " ALPHA " } (by decide)
  · exact (resolve_plan_prefers_exact [{ id := 1, name := "Alpha Plan" }] "zzz").2.2
      (by decide) (by decide)

/-! ## Claim theorems: versioned pagination client -/

/-- C1: the collection a paginated fetch returns comes from a single API
version — the first one whose pagination loop completes without error.
Generally: when version `vA` errors somewhere in its loop and version `vB`
completes with `out`, the client returns exactly `out` (the pages `vB`
accumulated from an empty accumulator), discarding everything fetched under
`vA`; concretely, with `verA` serving one page before erroring and `verB`
serving two token-linked pages, the result is the concatenation of `verB`'s
two pages only. -/
theorem pagination_single_version :
    (∀ (α : Type) (fetch : String → Option String → FetchResult α)
        (vA vB : String) (rest : List String) (fuel : Nat) (e : String) (out : List α),
      paginate fetch vA fuel none [] = .errored e →
      paginate fetch vB fuel none [] = .done out →
      get_json_paginated_fallback fetch fuel (vA :: vB :: rest) "" = some (.ok out)) ∧
    paginate c1fetch "verA" 5 none [] = .errored "500 boom" ∧
    get_json_paginated_fallback c1fetch 5 ["verA", "verB"] "" =
      some (.ok [10, 20, 30]) := by
  refine ⟨fun α fetch vA vB rest fuel e out hA hB => ?_, by decide, by rfl⟩
  simp only [get_json_paginated_fallback, hA, hB]

/-- Witness for C1, discharging its hypotheses on the concrete oracle. -/
theorem pagination_single_version_witness :
    get_json_paginated_fallback c1fetch 5 ["verA", "verB", "verC"] "" =
      some (.ok [10, 20, 30]) :=
  pagination_single_version.1 Nat c1fetch "verA" "verB" ["verC"] 5 "500 boom"
    [10, 20, 30] (by decide) (by decide)

/-- C7: when every candidate version's pagination loop errors, the fetch is
fatal and the raised error carries the `"{status} {text}"` string of the
last-tried version; no page collection is returned. -/
theorem pagination_all_fail_last_error (α : Type)
    (fetch : String → Option String → FetchResult α) (fuel : Nat)
    (errOf : String → String) (versions : List String) (last0 : String)
    (herr : ∀ v ∈ versions, paginate fetch v fuel none [] = .errored (errOf v))
    (vL : String) (hlast : versions.getLast? = some vL) :
    get_json_paginated_fallback fetch fuel versions last0 =
      some (.error (errOf vL)) := by
  revert herr hlast
  induction versions generalizing last0 with
  | nil => exact fun _ hlast => absurd hlast (by simp)
  | cons v rest ih =>
    intro herr hlast
    simp only [get_json_paginated_fallback, herr v (by simp)]
    cases rest with
    | nil =>
      simp only [List.getLast?_singleton, Option.some.injEq] at hlast
      simp only [get_json_paginated_fallback, hlast]
    | cons r rs =>
      rw [List.getLast?_cons_cons] at hlast
      exact ih (errOf v) (fun w hw => herr w (List.mem_cons_of_mem v hw)) hlast

/-- Witness for C7: both versions error; the error body of `"b"`, the
last-tried version, is surfaced. -/
theorem pagination_all_fail_last_error_witness :
    get_json_paginated_fallback c7fetch 5 ["a", "b"] "" =
      some (.error ("500 " ++ "boom-" ++ "b")) :=
  pagination_all_fail_last_error Nat c7fetch 5 (fun v => "500 " ++ "boom-" ++ v)
    ["a", "b"] "" (by decide) "b" (by decide)

/-! ## Claim theorems: hierarchy resolver -/

theorem dictGet_id {suites : List Suite} {k : String} {s : Suite}
    (h : dictGet suites k = some s) : s.id = k := by
  unfold dictGet at h
  have := List.find?_some h
  exact of_decide_eq_true this

theorem chain_ne_nil {suites : List Suite} {s : Suite} {l : List Suite}
    (h : Chain suites s l) : l ≠ [] := by
  cases h <;> simp

theorem path_loop_of_chain {suites : List Suite} {s : Suite} {l : List Suite}
    (h : Chain suites s l) :
    ∀ fuel parts, l.length ≤ fuel →
      path_loop suites fuel s parts = .parts (parts ++ l.map Suite.name) := by
  induction h with
  | root s hs =>
    intro fuel parts hf
    cases fuel with
    | zero => simp at hf
    | succ n => simp [path_loop, hs]
  | step s p rest pid hpid hget hch ih =>
    intro fuel parts hf
    cases fuel with
    | zero => simp at hf
    | succ n =>
      simp only [path_loop, hpid, hget]
      rw [ih n (parts ++ [s.name]) (by simp at hf ⊢; omega)]
      simp

theorem top_ancestor_of_chain {suites : List Suite} {s : Suite} {l : List Suite}
    (h : Chain suites s l) :
    dictGet suites s.id = some s →
    ∀ fuel, l.length ≤ fuel →
      ∃ r, l.getLast? = some r ∧ top_ancestor suites fuel s.id = .found r.id := by
  induction h with
  | root s hs =>
    intro hid fuel hf
    cases fuel with
    | zero => simp at hf
    | succ n =>
      refine ⟨s, by simp, ?_⟩
      simp [top_ancestor, hid, hs]
  | step s p rest pid hpid hget hch ih =>
    intro hid fuel hf
    cases fuel with
    | zero => simp at hf
    | succ n =>
      have hpid_id : p.id = pid := dictGet_id hget
      obtain ⟨r, hr1, hr2⟩ := ih (hpid_id ▸ hget) n (by simp at hf ⊢; omega)
      refine ⟨r, ?_, ?_⟩
      · cases rest with
        | nil => exact absurd rfl (chain_ne_nil hch)
        | cons a t => rw [List.getLast?_cons_cons]; exact hr1
      · simp only [top_ancestor, hid, hpid]
        rw [← hpid_id]
        exact hr2

/-- C8: for an acyclic snapshot, witnessed by the ancestor chain of a suite
(node first, root last), `top_ancestor` returns the id of the chain's last
element — the record with no parent — and `path_for` collects exactly the
chain's names, so the cached path string is the slash-join of ancestor
names from the root down to the node. -/
theorem hierarchy_path_and_root (suites : List Suite) (s : Suite) (l : List Suite)
    (fuel : Nat) (hid : dictGet suites s.id = some s) (h : Chain suites s l)
    (hf : l.length ≤ fuel) :
    (∃ r, l.getLast? = some r ∧ top_ancestor suites fuel s.id = .found r.id) ∧
    path_for suites fuel s.id = .parts (l.map Suite.name) ∧
    path_string suites fuel s.id =
      some (String.intercalate "/" (l.map Suite.name).reverse) := by
  have h2 : path_for suites fuel s.id = .parts (l.map Suite.name) := by
    unfold path_for
    rw [hid]
    have := path_loop_of_chain h fuel [] hf
    simpa using this
  refine ⟨top_ancestor_of_chain h hid fuel hf, h2, ?_⟩
  unfold path_string
  rw [h2]

/-- Witness for C8: the spec's three-level chain root → mid → leaf yields
`pathOf(leaf) = "root/mid/leaf"` and `rootAncestorOf(leaf) = root.id`. -/
theorem hierarchy_path_and_root_witness :
    (∃ r, [sLeaf, sMid, sRoot].getLast? = some r ∧
       top_ancestor chain3 3 sLeaf.id = .found r.id) ∧
    path_for chain3 3 sLeaf.id = .parts (List.map Suite.name [sLeaf, sMid, sRoot]) ∧
    path_string chain3 3 sLeaf.id =
      some (String.intercalate "/" (List.map Suite.name [sLeaf, sMid, sRoot]).reverse) :=
  hierarchy_path_and_root chain3 sLeaf [sLeaf, sMid, sRoot] 3 (by decide)
    (Chain.step _ _ _ "2" rfl (by decide)
      (Chain.step _ _ _ "1" rfl (by decide) (Chain.root _ rfl)))
    (by decide)

theorem mapM_opt_head_none {χ ψ : Type} {f : χ → Option ψ} {a : χ} {t : List χ}
    (h : f a = none) : (a :: t).mapM f = none := by
  simp [List.mapM_cons, List.mapM.loop, h]

theorem cyc_top_ancestor : ∀ n,
    top_ancestor twoCycle n "A" = .outOfFuel ∧
    top_ancestor twoCycle n "B" = .outOfFuel := by
  intro n
  induction n with
  | zero => exact ⟨rfl, rfl⟩
  | succ m ih =>
    have hA : dictGet twoCycle "A" =
        some { id := "A", name := "a-name", parentId := some "B" } := by decide
    have hB : dictGet twoCycle "B" =
        some { id := "B", name := "b-name", parentId := some "A" } := by decide
    constructor
    · simp only [top_ancestor, hA]
      exact ih.2
    · simp only [top_ancestor, hB]
      exact ih.1

theorem cyc_path_loop : ∀ n parts,
    path_loop twoCycle n { id := "A", name := "a-name", parentId := some "B" } parts
      = .outOfFuel ∧
    path_loop twoCycle n { id := "B", name := "b-name", parentId := some "A" } parts
      = .outOfFuel := by
  intro n
  induction n with
  | zero => exact fun _ => ⟨rfl, rfl⟩
  | succ m ih =>
    intro parts
    have hA : dictGet twoCycle "A" =
        some { id := "A", name := "a-name", parentId := some "B" } := by decide
    have hB : dictGet twoCycle "B" =
        some { id := "B", name := "b-name", parentId := some "A" } := by decide
    constructor
    · simp only [path_loop, hB]
      exact (ih (parts ++ ["a-name"])).2
    · simp only [path_loop, hA]
      exact (ih (parts ++ ["b-name"])).1

/-- C2, amended: on the two-suite mutual-parent cycle the resolver's walks
never terminate — for every fuel bound the bounded walk is still running —
and no error of any kind (in particular no `CycleError`, which does not
exist in the source) is raised; `build_suite_path_lookup` on the cyclic
snapshot likewise never completes. -/
theorem cycle_walks_never_terminate : ∀ n,
    top_ancestor twoCycle n "A" = .outOfFuel ∧
    path_for twoCycle n "A" = .outOfFuel ∧
    build_suite_path_lookup twoCycle n = none := by
  intro n
  have h1 := (cyc_top_ancestor n).1
  have h2 : path_for twoCycle n "A" = .outOfFuel := by
    unfold path_for
    have hA : dictGet twoCycle "A" =
        some { id := "A", name := "a-name", parentId := some "B" } := by decide
    rw [hA]
    exact (cyc_path_loop n []).1
  refine ⟨h1, h2, ?_⟩
  have hps : path_string twoCycle n "A" = none := by
    unfold path_string
    rw [h2]
  exact mapM_opt_head_none (by
    rw [show path_string twoCycle n
          ({ id := "A", name := "a-name", parentId := some "B" } : Suite).id = none
        from hps]
    rfl)

/-- Counterexample to C2 as stated: on the two-node cycle with fuel 50 —
vastly more steps than any terminating two-suite walk could take — both
walks are still running and have produced no `CycleError` (nor any other
failure); the code simply loops. -/
theorem cycle_no_cycle_error :
    top_ancestor twoCycle 50 "A" = .outOfFuel ∧
    path_for twoCycle 50 "A" = .outOfFuel := by decide

/-! ## Claim theorems: aggregation output -/

theorem mem_alUpd {κ β : Type} [DecidableEq κ] (l : List (κ × β)) (k : κ) (f : β → β)
    (init : β) (e : κ × β) (he : e ∈ alUpd l k f init) :
    e = (k, f init) ∨ (∃ v, (e.1, v) ∈ l ∧ e.2 = f v) ∨ e ∈ l := by
  induction l with
  | nil =>
    simp only [alUpd, List.mem_singleton] at he
    exact Or.inl he
  | cons a t ih =>
    unfold alUpd at he
    by_cases h : a.1 = k
    · rw [if_pos h] at he
      rcases List.mem_cons.mp he with he1 | he2
      · refine Or.inr (Or.inl ⟨a.2, ?_, ?_⟩)
        · rw [he1]
          exact List.mem_cons_self a t
        · rw [he1]
      · exact Or.inr (Or.inr (List.mem_cons_of_mem a he2))
    · rw [if_neg h] at he
      rcases List.mem_cons.mp he with he1 | he2
      · rw [he1]
        exact Or.inr (Or.inr (List.mem_cons_self a t))
      · rcases ih he2 with h1 | ⟨v, hv1, hv2⟩ | h3
        · exact Or.inl h1
        · exact Or.inr (Or.inl ⟨v, List.mem_cons_of_mem a hv1, hv2⟩)
        · exact Or.inr (Or.inr (List.mem_cons_of_mem a h3))

theorem alGet_mem {κ β : Type} [DecidableEq κ] {l : List (κ × β)} {k : κ} {v : β}
    (h : alGet l k = some v) : (k, v) ∈ l := by
  unfold alGet at h
  match hf : l.find? (fun e => e.1 = k) with
  | none => rw [hf] at h; cases h
  | some w =>
    rw [hf] at h
    simp only [Option.map_some', Option.some.injEq] at h
    have hm := List.mem_of_find?_eq_some hf
    have hp := @List.find?_some (κ × β) (fun e => decide (e.1 = k)) w l hf
    have hk : w.1 = k := of_decide_eq_true hp
    rw [← h, ← hk]
    exact hm

theorem InvT_alUpd {aggT : List (Nat × Bucket)} (hI : InvT aggT) (tcid : Nat)
    (tcname : Option String) (fed : String) (ps : String) :
    InvT (alUpd aggT tcid (updBucket tcname fed ps) (bucketInit tcname)) := by
  intro e he
  rcases mem_alUpd _ _ _ _ e he with h1 | ⟨v, hv1, hv2⟩ | h3
  · rw [h1]
    exact worse_goodOpt (Or.inl rfl) _
  · rw [hv2]
    exact worse_goodOpt (hI (e.1, v) hv1) _
  · exact hI e h3

theorem Inv_processPoint {agg agg' : AggState} {tid ps : String} {p : Point}
    (hI : Inv agg) (h : processPoint tid ps agg p = some agg') : Inv agg' := by
  unfold processPoint at h
  split at h
  · cases h; exact hI
  · split at h
    · cases h; exact hI
    · split at h
      · cases h
      · cases h
        intro e he
        rcases mem_alUpd _ _ _ _ e he with h1 | ⟨v, hv1, hv2⟩ | h3
        · rw [h1]
          exact InvT_alUpd (fun x hx => absurd hx (List.not_mem_nil x)) _ _ _ _
        · rw [hv2]
          exact InvT_alUpd (hI (e.1, v) hv1) _ _ _ _
        · exact hI e h3

theorem foldlM_opt_inv {σ χ : Type} (step : σ → χ → Option σ) (P : σ → Prop)
    (hstep : ∀ s a s', P s → step s a = some s' → P s') :
    ∀ (l : List χ) (s s' : σ), P s → l.foldlM step s = some s' → P s' := by
  intro l
  induction l with
  | nil =>
    intro s s' hs h
    simp only [List.foldlM_nil, pure, Option.some.injEq] at h
    rw [← h]
    exact hs
  | cons a t ih =>
    intro s s' hs h
    rw [List.foldlM_cons] at h
    match hsa : step s a with
    | none => rw [hsa] at h; cases h
    | some s2 =>
      rw [hsa] at h
      exact ih s2 s' (hstep s a s2 hs hsa) h

theorem Inv_processSuite {suites : List Suite} {pointsOf : String → List Point}
    {fuel : Nat} {suite_path : List (String × String)} {agg agg' : AggState} {s : Suite}
    (hI : Inv agg) (h : processSuite suites pointsOf fuel suite_path agg s = some agg') :
    Inv agg' := by
  unfold processSuite at h
  by_cases hpts : (pointsOf s.id).isEmpty
  · rw [if_pos hpts] at h; cases h; exact hI
  · rw [if_neg hpts] at h
    match hta : top_ancestor suites fuel s.id with
    | .found tid =>
      rw [hta] at h
      exact foldlM_opt_inv _ Inv (fun st a st' hst hstep => Inv_processPoint hst hstep)
        (pointsOf s.id) agg agg' hI h
    | .missingKey i => rw [hta] at h; cases h
    | .outOfFuel => rw [hta] at h; cases h

/-- C10: every emitted row's `Outcome` is a recognized status or
`NeverRun`: an unrecognized raw string can never reach the output, because
`worse` keeps its first argument on ties, an unrecognized string has the
same rank as the unset accumulator (so it never displaces it), and emission
replaces any remaining unset value by `NeverRun`. -/
theorem emitted_outcomes_recognized :
    (∀ (suites : List Suite) (pointsOf : String → List Point)
        (latest_by_point : List (Nat × Option String × Option String))
        (fuel : Nat) (rows : List Row),
      aggregate suites pointsOf latest_by_point fuel = some rows →
      ∀ row ∈ rows, row.Outcome ∈ allowedOutcomes) ∧
    (∀ a b, OUTCOME_ORDER a = OUTCOME_ORDER b → worse a b = a) ∧
    (∀ s, recognizedB (some s) = false →
      OUTCOME_ORDER (some s) = OUTCOME_ORDER none) := by
  refine ⟨fun suites pointsOf lbp fuel rows h row hrow => ?_,
          fun a b hab => worse_of_le (le_of_eq hab.symm),
          fun s hs => order_of_unrecognized hs⟩
  unfold aggregate at h
  split at h
  · cases h
  · split at h
    · cases h
    · rename_i suite_path hsp agg hfold
      cases h
      have hInv0 : Inv ((suites.filter (fun s => s.parentId.isNone)).map
          (fun s => (s.id, ([] : List (Nat × Bucket))))) := by
        intro e he
        obtain ⟨s, _, hs2⟩ := List.mem_map.mp he
        rw [← hs2]
        exact fun x hx => absurd hx (List.not_mem_nil x)
      have hInv : Inv agg :=
        foldlM_opt_inv _ Inv (fun st a st' hst hstep => Inv_processSuite hst hstep)
          suites _ agg hInv0 hfold
      obtain ⟨rl, hrl1, hrl2⟩ := List.mem_flatten.mp hrow
      obtain ⟨top, _, htop2⟩ := List.mem_map.mp hrl1
      rw [← htop2] at hrl2
      unfold rowsForTop at hrl2
      match halg : alGet agg top.id with
      | none => rw [halg] at hrl2; simp at hrl2
      | some aggT =>
        rw [halg] at hrl2
        obtain ⟨e, he1, he2⟩ := List.mem_map.mp hrl2
        rw [← he2]
        exact goodOpt_emit (hInv (top.id, aggT) (alGet_mem halg) e he1)

/-- Witness for C10: a point whose raw outcome is the unknown string
`"Aborted"` yields an emitted row whose `Outcome` is `NeverRun`. -/
theorem emitted_outcomes_recognized_witness :
    (Row.mk "1" "Top" 42 (some "TC-42") "NeverRun" 1 "Top").Outcome ∈ allowedOutcomes :=
  emitted_outcomes_recognized.1 c3suites c10pointsOf [] 10
    [Row.mk "1" "Top" 42 (some "TC-42") "NeverRun" 1 "Top"] (by rfl)
    (Row.mk "1" "Top" 42 (some "TC-42") "NeverRun" 1 "Top") (by decide)

/-- C3: the backfill map is dead state.  `buildBackfillMap` records the
latest Result outcome `Failed` for point 7, the only point of test case 42
has no direct outcome fields, and yet the emitted row for case 42 says
`NeverRun`: the aggregation ignores `latest_by_point` entirely — its output
is the same for every possible backfill map. -/
theorem backfill_map_unused :
    buildBackfillMap c3runs c3resultsOf = [(7, some "Failed", some "2024-01-01")] ∧
    aggregate c3suites c3pointsOf (buildBackfillMap c3runs c3resultsOf) 10 =
      some [Row.mk "1" "Top" 42 (some "TC-42") "NeverRun" 1 "Top"] ∧
    (∀ latest_by_point, aggregate c3suites c3pointsOf latest_by_point 10 =
      aggregate c3suites c3pointsOf [] 10) :=
  ⟨by decide, by decide, fun latest_by_point => rfl⟩

end StateTest
